import Mathlib

/-!
Verification of `glm_saga/elasticnet.py` (elastic-net GLM solver with proximal SAGA).

Shallow embedding over exact rationals.  Tensor-library primitives that are
transcendental (square roots in `Tensor.norm`, `10 ** x` and `log10` in
`torch.logspace`, `softmax`, `cross_entropy`) are passed in as function
parameters; theorems that depend on their defining properties take those
properties as hypotheses at the evaluation points that matter.
Matrices are functions `Fin c → Fin d → ℚ` (class-by-feature, matching the
weight layout of the source), vectors are `Fin c → ℚ`, and data loaders are
lists of batches.  Where a property turns on the float code's behavior at a
division by zero (the zero-norm column of `group_threshold`), the embedding
uses `Option ℚ` with `none` standing for a non-finite float value (NaN or
infinity, see `divF`); elsewhere exact rational arithmetic is used.
-/

set_option autoImplicit false

/-- Embeds `soft_threshold` (elasticnet.py lines 52-53):
`(beta - lam) * (beta > lam) + (beta + lam) * (beta < -lam)`,
with the boolean masks rendered as 0/1 factors. -/
def soft_threshold (beta lam : ℚ) : ℚ :=
  (beta - lam) * (if beta > lam then 1 else 0) + (beta + lam) * (if beta < -lam then 1 else 0)

/-- Embeds `group_threshold` (lines 59-61) in exact arithmetic.
`norm(p=2, dim=0)` takes the column-wise Euclidean norm; the square root
inside that norm is the library primitive `sq` supplied as a parameter,
applied to the column's sum of squares.
`(weight - lam * weight / norm) * (norm > lam)` is rendered entrywise.
Caveat: rational division by zero is 0, so on a column of norm 0 this
idealization returns 0 where the float program computes `0/0 = NaN` and
`NaN * 0 = NaN`; that non-finite path is modelled faithfully by
`group_thresholdF` below.  This exact form is used by the trainer embedding,
whose claims do not depend on the zero-norm column value. -/
def group_threshold (sq : ℚ → ℚ) {c d : ℕ} (weight : Fin c → Fin d → ℚ) (lam : ℚ) :
    Fin c → Fin d → ℚ :=
  fun k l =>
    let nrm := sq (∑ i, (weight i l) ^ 2)
    (weight k l - lam * weight k l / nrm) * (if nrm > lam then 1 else 0)

/-- Division as the float program performs it: dividing by zero yields a
non-finite value (`NaN` for `0/0`, `±inf` otherwise), rendered as `none`;
otherwise the exact quotient.  In the expressions of lines 61 and 68/76 every
non-finite intermediate stays non-finite through the subsequent subtraction,
mask multiplication (`inf * 0 = NaN`, `NaN * x = NaN`) and division by a
scalar, so `none` soundly tracks "the float result is not a finite number". -/
def divF (x y : ℚ) : Option ℚ :=
  if y = 0 then none else some (x / y)

/-- Embeds `group_threshold` (lines 59-61) with the float behavior of
division by zero kept: on a column of norm 0 the source computes
`lam * weight / 0` — for the all-zero column that is `0/0 = NaN` — and
`(weight - NaN) * (norm > lam)` is `NaN` whatever the mask, so the entry is
non-finite (`none`) rather than zero.  On a nonzero norm the result is the
exact value of `(weight - lam * weight / norm) * (norm > lam)`. -/
def group_thresholdF (sq : ℚ → ℚ) {c d : ℕ} (weight : Fin c → Fin d → ℚ) (lam : ℚ) :
    Fin c → Fin d → Option ℚ :=
  fun k l =>
    let nrm := sq (∑ i, (weight i l) ^ 2)
    (divF (lam * weight k l) nrm).map
      fun q => (weight k l - q) * (if nrm > lam then 1 else 0)

/-- Embeds `soft_threshold_with_shrinkage` (lines 66-68):
`y = soft_threshold(x, alpha); y / (1 + beta)`. -/
def soft_threshold_with_shrinkage (x alpha beta : ℚ) : ℚ :=
  soft_threshold x alpha / (1 + beta)

/-- Embeds `group_threshold_with_shrinkage` (lines 74-76) in exact
arithmetic: `y = group_threshold(x, alpha); y / (1 + beta)`.  Inherits
`group_threshold`'s idealized zero-norm column (see
`group_threshold_with_shrinkageF` for the float-faithful form). -/
def group_threshold_with_shrinkage (sq : ℚ → ℚ) {c d : ℕ} (x : Fin c → Fin d → ℚ)
    (alpha beta : ℚ) : Fin c → Fin d → ℚ :=
  fun k l => group_threshold sq x alpha k l / (1 + beta)

/-- Embeds `group_threshold_with_shrinkage` (lines 74-76) on top of the
float-faithful `group_thresholdF`: `y / (1 + beta)` keeps a non-finite `y`
non-finite and itself divides by zero when `1 + beta = 0`. -/
def group_threshold_with_shrinkageF (sq : ℚ → ℚ) {c d : ℕ} (x : Fin c → Fin d → ℚ)
    (alpha beta : ℚ) : Fin c → Fin d → Option ℚ :=
  fun k l => (group_thresholdF sq x alpha k l).bind fun q => divF q (1 + beta)

/-- Embeds the proximal step of `train_saga` (lines 255-268): the `alpha == 1`
case applies the plain threshold with parameter `lr*lam*alpha`, the general
case applies the elastic-net threshold with shrinkage `lr*lam*(1-alpha)`;
`group` selects the column-grouped operator. -/
def saga_prox_update (sq : ℚ → ℚ) {c d : ℕ} (group : Bool) (lr lam alpha : ℚ)
    (w : Fin c → Fin d → ℚ) : Fin c → Fin d → ℚ :=
  if alpha = 1 then
    if group then group_threshold sq w (lr * lam * alpha)
    else fun k l => soft_threshold (w k l) (lr * lam * alpha)
  else
    if group then group_threshold_with_shrinkage sq w (lr * lam * alpha) (lr * lam * (1 - alpha))
    else fun k l => soft_threshold_with_shrinkage (w k l) (lr * lam * alpha) (lr * lam * (1 - alpha))

/-- The elastic-net branch of lines 261-268 alone, without the `alpha == 1`
case split: the general proximal operator evaluated at arbitrary `alpha`. -/
def saga_prox_update_general (sq : ℚ → ℚ) {c d : ℕ} (group : Bool) (lr lam alpha : ℚ)
    (w : Fin c → Fin d → ℚ) : Fin c → Fin d → ℚ :=
  if group then group_threshold_with_shrinkage sq w (lr * lam * alpha) (lr * lam * (1 - alpha))
  else fun k l => soft_threshold_with_shrinkage (w k l) (lr * lam * alpha) (lr * lam * (1 - alpha))

/-- Embeds `nnz = (linear.weight.abs() > 1e-5).sum().item()` (line 558): the
number of weight entries of magnitude strictly above `1e-5`. -/
def weight_nnz {c d : ℕ} (W : Fin c → Fin d → ℚ) : ℕ :=
  (Finset.univ.filter fun p : Fin c × Fin d => |W p.1 p.2| > 1 / 100000).card

/-- The quantity the spec sentence behind claim C1 calls "weight sparsity":
the fraction of weight entries whose magnitude is below `1e-5`.  Written from
the spec's words, for comparison against what the code computes. -/
def near_zero_frac {c d : ℕ} (W : Fin c → Fin d → ℚ) : ℚ :=
  ((Finset.univ.filter fun p : Fin c × Fin d => |W p.1 p.2| < 1 / 100000).card : ℚ)
    / ((c * d : ℕ) : ℚ)

/-- One record of the regularization path (the `params` dict of lines 536-552,
without the wall-clock `time` field). -/
structure PathEntry (c d : ℕ) where
  lam : ℚ
  lr : ℚ
  alpha : ℚ
  loss : ℚ
  acc : ℚ
  loss_val : ℚ
  acc_val : ℚ
  loss_test : ℚ
  acc_test : ℚ
  weight : Fin c → Fin d → ℚ
  bias : Fin c → ℚ

/-- The quantity the sweep's break test (line 571) and its log line (line 562)
compute and call "sparsity": `nnz / total`, the fraction of weight entries of
magnitude strictly above `1e-5`. -/
def code_density {c d : ℕ} (W : Fin c → Fin d → ℚ) : ℚ :=
  (weight_nnz W : ℚ) / ((c * d : ℕ) : ℚ)

/-- Evaluation on an optional loader (lines 517-534): metrics stay `(-1, -1)`
when the loader is `None`, otherwise `elastic_loss_and_acc_loader` — the
abstract `f` — is invoked. -/
def evalOrNeg1 {σ : Type} (f? : Option (σ → ℚ → ℚ → ℚ × ℚ)) (state : σ) (lam lr : ℚ) :
    ℚ × ℚ :=
  match f? with
  | none => ((-1 : ℚ), (-1 : ℚ))
  | some f => f state lam lr

/-- The `params` record appended to the path (lines 536-553). -/
def mkPathEntry {c d : ℕ} (lam lr alpha : ℚ) (tr vl te : ℚ × ℚ)
    (W : Fin c → Fin d → ℚ) (b : Fin c → ℚ) : PathEntry c d :=
  { lam := lam, lr := lr, alpha := alpha, loss := tr.1, acc := tr.2,
    loss_val := vl.1, acc_val := vl.2, loss_test := te.1, acc_test := te.2,
    weight := W, bias := b }

/-- The best-validation bookkeeping (lines 554-556):
`if loss_val is not None and loss_val < best_val_loss` updates both
`best_val_loss` and `best_params`; `loss_val` is never `None`, and the
initial `best_val_loss = float("inf")` is modelled by `none`, which every
value improves on. -/
def bestsUpdate {c d : ℕ} (lv : ℚ) (entry : PathEntry c d) (best_val_loss : Option ℚ)
    (best_params : Option (PathEntry c d)) : Option ℚ × Option (PathEntry c d) :=
  match best_val_loss with
  | none => (some lv, some entry)
  | some b => if lv < b then (some lv, some entry) else (best_val_loss, best_params)

/-- The break test of line 571:
`max_sparsity is not None and nnz/total > max_sparsity`. -/
def stopCheck {c d : ℕ} (max_sparsity : Option ℚ) (W : Fin c → Fin d → ℚ) : Bool :=
  match max_sparsity with
  | none => false
  | some ms => decide (code_density W > ms)

/-- Embeds the main sweep of `glm_saga` (lines 490-573).  The trainer
(`train_saga` with the linear model it mutates) is the abstract state
transformer `train` with accessors `getW`/`getB`; `evalTr` embeds
`elastic_loss_and_acc_loader` on the training loader, and
`evalVal`/`evalTest` its invocations on the optional validation/test loaders
(`none` models a `None` loader, in which case the metrics stay `-1`, lines
517 and 524).  The accumulators are `path`, `best_val_loss` (`none` models
the initial `float("inf")`) and `best_params` (`none` models the unbound
variable).  After appending an entry the sweep breaks when `stopCheck`
fires (line 571); otherwise it continues with the next `(lam, lr)` pair. -/
def glm_saga_loop {σ : Type} {c d : ℕ} (train : σ → ℚ → ℚ → σ)
    (getW : σ → Fin c → Fin d → ℚ) (getB : σ → Fin c → ℚ)
    (evalTr : σ → ℚ → ℚ → ℚ × ℚ)
    (evalVal evalTest : Option (σ → ℚ → ℚ → ℚ × ℚ))
    (alpha : ℚ) (max_sparsity : Option ℚ) :
    List (ℚ × ℚ) → σ → List (PathEntry c d) → Option ℚ → Option (PathEntry c d) →
      List (PathEntry c d) × Option (PathEntry c d) × σ
  | [], state, path, _, best_params => (path, best_params, state)
  | (lam, lr) :: rest, state, path, best_val_loss, best_params =>
      let state2 := train state lam lr
      let entry : PathEntry c d :=
        mkPathEntry lam lr alpha (evalTr state2 lam lr)
          (evalOrNeg1 evalVal state2 lam lr) (evalOrNeg1 evalTest state2 lam lr)
          (getW state2) (getB state2)
      let bests := bestsUpdate (evalOrNeg1 evalVal state2 lam lr).1 entry
        best_val_loss best_params
      if stopCheck max_sparsity (getW state2) then (path ++ [entry], bests.2, state2)
      else glm_saga_loop train getW getB evalTr evalVal evalTest alpha max_sparsity
        rest state2 (path ++ [entry]) bests.1 bests.2

/-- `glm_saga`'s sweep started with an empty path, `best_val_loss = inf` and
no best entry (lines 471-472). -/
def glm_saga_run {σ : Type} {c d : ℕ} (train : σ → ℚ → ℚ → σ)
    (getW : σ → Fin c → Fin d → ℚ) (getB : σ → Fin c → ℚ)
    (evalTr : σ → ℚ → ℚ → ℚ × ℚ)
    (evalVal evalTest : Option (σ → ℚ → ℚ → ℚ × ℚ))
    (alpha : ℚ) (max_sparsity : Option ℚ)
    (pairs : List (ℚ × ℚ)) (state : σ) :
    List (PathEntry c d) × Option (PathEntry c d) × σ :=
  glm_saga_loop train getW getB evalTr evalVal evalTest alpha max_sparsity
    pairs state [] none none

/-- Embeds `torch.logspace(a, b, steps)`: `steps` points `10 ** (a + i*(b-a)/(steps-1))`;
the base-10 exponential is the library primitive `pow10` supplied as a
parameter.  (For `steps = 1` the ratio divides by zero; rational division by
zero is 0, giving the single point `10 ** a`, as torch does.) -/
def logspace (pow10 : ℚ → ℚ) (a b : ℚ) (steps : ℕ) : List ℚ :=
  (List.range steps).map fun i : ℕ => pow10 (a + (i : ℚ) * (b - a) / ((steps : ℚ) - 1))

/-- Embeds the schedule construction of `glm_saga` (lines 458-469):
`max_lam = maximum_reg / max(0.001, alpha)`, `min_lam = epsilon * max_lam`,
`k` log-spaced lambdas from `max_lam` to `min_lam`, `k` log-spaced learning
rates from `max_lr` to `max_lr / lr_decay_factor`, and with `do_zero` one
extra lambda `0` paired with a copy of the last learning rate; the result is
the zipped list of `(lam, lr)` pairs iterated by the sweep (line 490). -/
def buildSchedule (pow10 log10 : ℚ → ℚ) (maximum_reg alpha epsilon max_lr lr_decay_factor : ℚ)
    (k : ℕ) (do_zero : Bool) : List (ℚ × ℚ) :=
  let max_lam := maximum_reg / max (1/1000) alpha
  let min_lam := epsilon * max_lam
  let lams := logspace pow10 (log10 max_lam) (log10 min_lam) k
  let lrs := logspace pow10 (log10 max_lr) (log10 (max_lr / lr_decay_factor)) k
  let lams2 := if do_zero then lams ++ [0] else lams
  let lrs2 := if do_zero then lrs ++ [lrs.getLastD 0] else lrs
  lams2.zip lrs2

/-- The state mutated by `train_saga` for a fixed dataset: the linear model's
weight and bias plus the warm-startable SAGA state `{a_table, w_grad_avg,
b_grad_avg}` (lines 184-191). -/
structure SagaModel (n c d : ℕ) where
  weight : Fin c → Fin d → ℚ
  bias : Fin c → ℚ
  aTable : Fin n → Fin c → ℚ
  wGradAvg : Fin c → Fin d → ℚ
  bGradAvg : Fin c → ℚ

/-- The `state is None` initialization of `train_saga` (lines 184-187):
zero gradient table and zero averages around the incoming model. -/
def initSaga {n c d : ℕ} (w0 : Fin c → Fin d → ℚ) (b0 : Fin c → ℚ) : SagaModel n c d :=
  { weight := w0, bias := b0, aTable := fun _ _ => 0,
    wGradAvg := fun _ _ => 0, bGradAvg := fun _ => 0 }

/-- Embeds the residual `a = logits - target`, rescaled by the per-example
weight when one is supplied (lines 229-246, `gaussian` family, whose logits
are the linear outputs themselves).  The dataset is fixed: `x j` is the
feature row and `y j` the target row of example `j`, so a batch is just a
list of example indices. -/
def sagaResidual {n c d : ℕ} (x : Fin n → Fin d → ℚ) (y : Fin n → Fin c → ℚ)
    (sw : Option (Fin n → ℚ)) (weight : Fin c → Fin d → ℚ) (bias : Fin c → ℚ)
    (j : Fin n) : Fin c → ℚ :=
  fun k => ((∑ l, weight k l * x j l) + bias k - y j k) *
    (match sw with
     | none => 1
     | some w => w j)

/-- Embeds `(a.unsqueeze(2) * inputs.unsqueeze(1)).mean(0)` (lines 250-251):
the batch-averaged outer product of a residual table `a` with the inputs. -/
def batchWGrad {n c d : ℕ} (x : Fin n → Fin d → ℚ) (a : Fin n → Fin c → ℚ)
    (B : List (Fin n)) : Fin c → Fin d → ℚ :=
  fun k l => (B.map fun j => a j k * x j l).sum / (B.length : ℚ)

/-- Embeds `a.mean(0)` (lines 271-272): the batch-averaged residual. -/
def batchBGrad {n c : ℕ} (a : Fin n → Fin c → ℚ) (B : List (Fin n)) : Fin c → ℚ :=
  fun k => (B.map fun j => a j k).sum / (B.length : ℚ)

/-- Embeds lines 252-268: the SAGA direction
`w_grad - w_grad_prev + w_grad_avg`, the gradient step `weight - lr * w_saga`,
and the proximal update. -/
def sagaWeightNew (sq : ℚ → ℚ) {n c d : ℕ} (x : Fin n → Fin d → ℚ) (y : Fin n → Fin c → ℚ)
    (sw : Option (Fin n → ℚ)) (lr lam alpha : ℚ) (group : Bool)
    (st : SagaModel n c d) (B : List (Fin n)) : Fin c → Fin d → ℚ :=
  saga_prox_update sq group lr lam alpha fun k l =>
    st.weight k l - lr * (batchWGrad x (sagaResidual x y sw st.weight st.bias) B k l
      - batchWGrad x st.aTable B k l + st.wGradAvg k l)

/-- Embeds lines 271-274: `b_saga = b_grad - b_grad_prev + b_grad_avg` and
`bias_new = bias - lr * b_saga` (the bias is never regularized). -/
def sagaBiasNew {n c d : ℕ} (x : Fin n → Fin d → ℚ) (y : Fin n → Fin c → ℚ)
    (sw : Option (Fin n → ℚ)) (lr : ℚ) (st : SagaModel n c d) (B : List (Fin n)) :
    Fin c → ℚ :=
  fun k => st.bias k - lr * (batchBGrad (sagaResidual x y sw st.weight st.bias) B k
    - batchBGrad st.aTable B k + st.bGradAvg k)

/-- Embeds `a_table[idx] = a` (line 277): rows of the visited examples take
the freshly computed residual, all other rows are untouched. -/
def sagaStepTable {n c d : ℕ} (x : Fin n → Fin d → ℚ) (y : Fin n → Fin c → ℚ)
    (sw : Option (Fin n → ℚ)) (st : SagaModel n c d) (B : List (Fin n)) :
    Fin n → Fin c → ℚ :=
  fun i k => if i ∈ B then sagaResidual x y sw st.weight st.bias i k else st.aTable i k

/-- Embeds `w_grad_avg.add_((w_grad - w_grad_prev) * inputs.size(0) / n_ex)`
(line 278). -/
def sagaStepWAvg {n c d : ℕ} (x : Fin n → Fin d → ℚ) (y : Fin n → Fin c → ℚ)
    (sw : Option (Fin n → ℚ)) (st : SagaModel n c d) (B : List (Fin n)) :
    Fin c → Fin d → ℚ :=
  fun k l => st.wGradAvg k l +
    (batchWGrad x (sagaResidual x y sw st.weight st.bias) B k l
      - batchWGrad x st.aTable B k l) * (B.length : ℚ) / (n : ℚ)

/-- Embeds `b_grad_avg.add_((b_grad - b_grad_prev) * inputs.size(0) / n_ex)`
(line 279). -/
def sagaStepBAvg {n c d : ℕ} (x : Fin n → Fin d → ℚ) (y : Fin n → Fin c → ℚ)
    (sw : Option (Fin n → ℚ)) (st : SagaModel n c d) (B : List (Fin n)) :
    Fin c → ℚ :=
  fun k => st.bGradAvg k +
    (batchBGrad (sagaResidual x y sw st.weight st.bias) B k
      - batchBGrad st.aTable B k) * (B.length : ℚ) / (n : ℚ)

/-- Embeds lines 282-284: `dw`, `db` (Euclidean norms of the weight and bias
updates, via the library square root `sq`) and
`criteria = torch.sqrt(dw**2 + db**2)`. -/
def sagaStepCriteria (sq : ℚ → ℚ) {n c d : ℕ} (x : Fin n → Fin d → ℚ)
    (y : Fin n → Fin c → ℚ) (sw : Option (Fin n → ℚ)) (lr lam alpha : ℚ) (group : Bool)
    (st : SagaModel n c d) (B : List (Fin n)) : ℚ :=
  let wN := sagaWeightNew sq x y sw lr lam alpha group st B
  let bN := sagaBiasNew x y sw lr st B
  let dw := sq (∑ k, ∑ l, (wN k l - st.weight k l) ^ 2)
  let db := sq (∑ k, (bN k - st.bias k) ^ 2)
  sq (dw ^ 2 + db ^ 2)

/-- Embeds one batch iteration of `train_saga` (lines 244-294) on the batch of
example indices `B`.  The gradient table and the running averages are updated
first (lines 277-279); with `lookbehind = None` and `criteria <= tol` the
function returns at once (`true` flag) without committing the new weight and
bias, otherwise the new weight and bias are committed (lines 281-294). -/
def sagaBatchStep (sq : ℚ → ℚ) {n c d : ℕ} (x : Fin n → Fin d → ℚ)
    (y : Fin n → Fin c → ℚ) (sw : Option (Fin n → ℚ)) (lr lam alpha tol : ℚ)
    (group : Bool) (lookbehind : Option ℕ) (st : SagaModel n c d) (B : List (Fin n)) :
    SagaModel n c d × Bool :=
  match lookbehind with
  | none =>
      if sagaStepCriteria sq x y sw lr lam alpha group st B ≤ tol then
        ({ st with aTable := sagaStepTable x y sw st B,
                   wGradAvg := sagaStepWAvg x y sw st B,
                   bGradAvg := sagaStepBAvg x y sw st B }, true)
      else
        ({ weight := sagaWeightNew sq x y sw lr lam alpha group st B,
           bias := sagaBiasNew x y sw lr st B,
           aTable := sagaStepTable x y sw st B,
           wGradAvg := sagaStepWAvg x y sw st B,
           bGradAvg := sagaStepBAvg x y sw st B }, false)
  | some _ =>
      ({ weight := sagaWeightNew sq x y sw lr lam alpha group st B,
         bias := sagaBiasNew x y sw lr st B,
         aTable := sagaStepTable x y sw st B,
         wGradAvg := sagaStepWAvg x y sw st B,
         bGradAvg := sagaStepBAvg x y sw st B }, false)

/-- The GradientAverages invariant of the spec's data model: both running
averages equal the mean over all `n` examples of the contributions recorded
in the gradient table (the weight average pairing each row with its example's
features, the bias average the rows themselves). -/
def sagaAvgInvariant {n c d : ℕ} (x : Fin n → Fin d → ℚ) (st : SagaModel n c d) : Prop :=
  (∀ k l, st.wGradAvg k l = (∑ i, st.aTable i k * x i l) / (n : ℚ))
  ∧ (∀ k, st.bGradAvg k = (∑ i, st.aTable i k) / (n : ℚ))

/-- One-hot row `I[j]` of the `c × c` identity (line 224-225). -/
def oneHot (c : ℕ) (j : ℕ) : Fin c → ℚ :=
  fun k => if (k : ℕ) = j then 1 else 0

/-- The affine forward pass `linear(inputs)` on a list of feature rows. -/
def linearOut {c d : ℕ} (weight : Fin c → Fin d → ℚ) (bias : Fin c → ℚ)
    (inputs : List (Fin d → ℚ)) : List (Fin c → ℚ) :=
  inputs.map fun v k => (∑ l, weight k l * v l) + bias k

/-- Embeds `elastic_loss_and_acc` (lines 80-95).  The multinomial branch's
cross entropy is the library primitive `ce`; the accuracy compares the row
argmax (`outputs.max(1)[1]`) with the integer label.  The gaussian branch is
half the elementwise mean squared error with the exact-match rate.  Targets
come in both shapes, `yLabels` for multinomial and `yValues` for gaussian,
mirroring the duck typing of the Python argument `y`.  Any other family is
`ValueError(f"Unknown family {family}")`. -/
def elastic_loss_and_acc {c d : ℕ} (ce : List (Fin c → ℚ) → List ℕ → ℚ)
    (weight : Fin c → Fin d → ℚ) (bias : Fin c → ℚ)
    (inputs : List (Fin d → ℚ)) (yLabels : List ℕ) (yValues : List (Fin c → ℚ))
    (lam alpha : ℚ) (family : String) : Except String (ℚ × ℚ) :=
  let l1 := lam * alpha * ∑ k, ∑ l, |weight k l|
  let l2 := 1/2 * lam * (1 - alpha) * ∑ k, ∑ l, (weight k l) ^ 2
  let outputs := linearOut weight bias inputs
  if family = "multinomial" then
    let l := ce outputs yLabels
    let correct := (outputs.zip yLabels).countP fun p =>
      match (List.finRange c).argmax p.1 with
      | some j => (j : ℕ) == p.2
      | none => false
    Except.ok (l + l1 + l2, (correct : ℚ) / (outputs.length : ℚ))
  else if family = "gaussian" then
    let l := 1/2 * (((outputs.zip yValues).map fun p => ∑ k, (p.1 k - p.2 k) ^ 2).sum
      / ((outputs.length : ℚ) * (c : ℚ)))
    let correct := ((outputs.zip yValues).map fun p =>
      ((Finset.univ.filter fun k => p.1 k = p.2 k).card : ℚ)).sum
    Except.ok (l + l1 + l2, correct / ((outputs.length : ℚ) * (c : ℚ)))
  else Except.error ("Unknown family " ++ family)

/-- Embeds the target-encoding branch of `train_saga`'s batch loop (lines
218-240), producing the pair (targets, logits): multinomial one-hot-encodes
the labels and takes softmax probabilities (library primitive `softmaxF`),
gaussian uses the raw targets and the linear outputs, and any other family is
`ValueError(f"Unknown family: {family}")`. -/
def batchTargetEncode {c d : ℕ} (softmaxF : (Fin c → ℚ) → Fin c → ℚ)
    (weight : Fin c → Fin d → ℚ) (bias : Fin c → ℚ)
    (inputs : List (Fin d → ℚ)) (yLabels : List ℕ) (yValues : List (Fin c → ℚ))
    (family : String) : Except String (List (Fin c → ℚ) × List (Fin c → ℚ)) :=
  let out := linearOut weight bias inputs
  if family = "multinomial" then
    Except.ok (yLabels.map (oneHot c), out.map softmaxF)
  else if family = "gaussian" then
    Except.ok (yValues, out)
  else Except.error ("Unknown family: " ++ family)

/-- Embeds the family branch repeated in each of `maximum_reg_loader`'s three
data passes (lines 359-364, 375-380, 391-396): multinomial one-hot-encodes the
labels through `eye[y]`, gaussian passes the targets through, and any other
family is `ValueError(f"Unknown family {family}")`. -/
def maxRegEncode (y_max : ℕ) (yLabels : List ℕ) (yValues : List (Fin y_max → ℚ))
    (family : String) : Except String (List (Fin y_max → ℚ)) :=
  if family = "multinomial" then Except.ok (yLabels.map (oneHot y_max))
  else if family = "gaussian" then Except.ok yValues
  else Except.error ("Unknown family " ++ family)

/-- Embeds the `num_classes is None` inference of `train_saga` (lines
174-181): multinomial takes the maximum label over the loader plus one,
gaussian takes the first batch's target width.  The `if/elif` has no `else`
branch, so for any other family the block raises nothing and `num_classes`
silently remains `None`: rendered as `Except.ok none`. -/
def inferNumClasses (family : String) (num_classes : Option ℕ)
    (labelBatches : List (List ℕ)) (firstBatchWidth : Option ℕ) :
    Except String (Option ℕ) :=
  match num_classes with
  | some m => Except.ok (some m)
  | none =>
      if family = "multinomial" then
        Except.ok (some ((labelBatches.map fun b => b.foldr max 0).foldr max 0 + 1))
      else if family = "gaussian" then Except.ok firstBatchWidth
      else Except.ok none

/-- `soft_threshold` at zero penalty is the identity. -/
theorem soft_threshold_zero (v : ℚ) : soft_threshold v 0 = v := by
  unfold soft_threshold
  by_cases h1 : v > 0
  · have h2 : ¬ (v < -0) := by simp; linarith
    rw [if_pos h1, if_neg h2]; ring
  · by_cases h2 : v < -0
    · rw [if_neg h1, if_pos h2]; ring
    · have hv : v = 0 := le_antisymm (not_lt.mp h1) (by simpa using not_lt.mp h2)
      rw [if_neg h1, if_neg h2, hv]; ring

/-- Claim C8: `soft_threshold(v, lam)` computes elementwise `(v - lam)` where
`v > lam`, `(v + lam)` where `v < -lam`, and 0 otherwise (stated for the
regularization regime `0 ≤ lam`, where the two guard regions are disjoint);
and for every `v`, `soft_threshold(v, 0) = v`. -/
theorem claimC8 (v lam : ℚ) :
    (0 ≤ lam →
      soft_threshold v lam = if v > lam then v - lam else if v < -lam then v + lam else 0)
    ∧ soft_threshold v 0 = v := by
  constructor
  · intro hlam
    unfold soft_threshold
    by_cases h1 : v > lam
    · have h2 : ¬ (v < -lam) := by linarith
      simp [h1, h2]
    · by_cases h2 : v < -lam
      · simp [h1, h2]
      · simp [h1, h2]
  · exact soft_threshold_zero v

/-- Witness for C8 at `v = 3`, `lam = 1`. -/
theorem claimC8_witness :
    soft_threshold 3 1 = if (3:ℚ) > 1 then 3 - 1 else if (3:ℚ) < -1 then 3 + 1 else 0 :=
  (claimC8 3 1).1 (by norm_num)

/-- Claim C10: in `train_saga`'s proximal step, the dedicated `alpha == 1`
branch produces exactly the same new weight as the general elastic-net branch
evaluated at `alpha = 1` (where the shrinkage parameter `lr*lam*(1-alpha)`
vanishes), for both the grouped and non-grouped operators: the case split is
an optimization, not a semantic change. -/
theorem claimC10 (sq : ℚ → ℚ) (c d : ℕ) (group : Bool) (lr lam : ℚ)
    (w : Fin c → Fin d → ℚ) :
    saga_prox_update sq group lr lam 1 w = saga_prox_update_general sq group lr lam 1 w := by
  unfold saga_prox_update saga_prox_update_general
  have h1 : lr * lam * ((1:ℚ) - 1) = 0 := by ring
  cases group with
  | true =>
      simp only [if_pos rfl, if_true, h1]
      funext k l
      simp [group_threshold_with_shrinkage]
  | false =>
      simp only [if_pos rfl, if_false, h1]
      funext k l
      simp [soft_threshold_with_shrinkage]

/-- Claim C6 (code bug), evaluated at the failing input: the weight with
columns `(3,4)` (norm 5) and `(0,0)` (norm 0), `lam = 1`, with `sq` the exact
square root at the two sums of squares that occur.  The nonzero column is
scaled by `(1 - lam/norm)` exactly as the claim states; but the all-zero
column — whose norm is `0 ≤ lam`, the case the claim (and the comment at
lines 56-58, which declares the function the proximal operator of
`lam * ‖·‖₂`, an operator whose value on a zero column is zero) says is set
entirely to zero — comes out non-finite, not zero: line 61 divides
`lam * weight` by the zero norm, `0/0 = NaN`, and `NaN * 0 = NaN`.  The
claimed equivalence "result column is zero iff norm ≤ lam" fails at the same
input. -/
theorem claimC6 :
    group_thresholdF (fun s => if s = 25 then (5:ℚ) else 0)
      (fun k l : Fin 2 => if l = 0 then (if k = 0 then (3:ℚ) else 4) else 0) 1 0 0
      = some ((1 - 1/5) * 3)
    ∧ group_thresholdF (fun s => if s = 25 then (5:ℚ) else 0)
      (fun k l : Fin 2 => if l = 0 then (if k = 0 then (3:ℚ) else 4) else 0) 1 1 0
      = some ((1 - 1/5) * 4)
    ∧ (fun s => if s = 25 then (5:ℚ) else 0)
        (∑ i, ((fun k l : Fin 2 => if l = 0 then (if k = 0 then (3:ℚ) else 4) else 0) i 1) ^ 2)
      ≤ 1
    ∧ group_thresholdF (fun s => if s = 25 then (5:ℚ) else 0)
      (fun k l : Fin 2 => if l = 0 then (if k = 0 then (3:ℚ) else 4) else 0) 1 0 1 = none
    ∧ group_thresholdF (fun s => if s = 25 then (5:ℚ) else 0)
      (fun k l : Fin 2 => if l = 0 then (if k = 0 then (3:ℚ) else 4) else 0) 1 1 1 = none := by
  refine ⟨?_, ?_, ?_, ?_, ?_⟩ <;>
    norm_num [group_thresholdF, divF, Fin.sum_univ_two]

/-- Claim C7 (code bug): the scalar identities hold —
`soft_threshold_with_shrinkage(x, alpha, 0) = soft_threshold(x, alpha)` and
`soft_threshold_with_shrinkage(x, 0, beta) = x/(1+beta)` — and so does the
group analogue of the first (`beta = 0`) over the float-faithful operators;
but the group analogue of the `alpha = 0` identity fails on the program: on a
matrix with an all-zero column the `alpha = 0` group threshold is non-finite
(`0/0 = NaN` at line 61, propagated through the division by `1 + beta`),
not `x/(1+beta)`.  Evaluated here at the all-zero 1×1 matrix with `beta = 1`,
where the claimed identity would give the finite value `0 / (1+1) = 0`. -/
theorem claimC7 :
    (∀ x alpha : ℚ, soft_threshold_with_shrinkage x alpha 0 = soft_threshold x alpha)
    ∧ (∀ x beta : ℚ, soft_threshold_with_shrinkage x 0 beta = x / (1 + beta))
    ∧ (∀ (c d : ℕ) (sq : ℚ → ℚ) (W : Fin c → Fin d → ℚ) (alpha : ℚ),
        group_threshold_with_shrinkageF sq W alpha 0 = group_thresholdF sq W alpha)
    ∧ group_threshold_with_shrinkageF (fun _ => (0:ℚ))
        (fun _ _ => (0:ℚ) : Fin 1 → Fin 1 → ℚ) 0 1 (0 : Fin 1) (0 : Fin 1) = none
    ∧ (0:ℚ) / (1 + 1) = 0 := by
  refine ⟨?_, ?_, ?_, ?_, ?_⟩
  · intro x alpha
    unfold soft_threshold_with_shrinkage
    norm_num
  · intro x beta
    unfold soft_threshold_with_shrinkage
    rw [soft_threshold_zero]
  · intro c d sq W alpha
    funext k l
    unfold group_threshold_with_shrinkageF
    cases h : group_thresholdF sq W alpha k l with
    | none => simp [h]
    | some q => simp [h, divF]
  · norm_num [group_threshold_with_shrinkageF, group_thresholdF, divF]
  · norm_num

/-- With no sparsity ceiling the break test never fires. -/
theorem stopCheck_none {c d : ℕ} (W : Fin c → Fin d → ℚ) : stopCheck none W = false := rfl

/-- With a ceiling `ms`, the break test fires exactly when the code's
`nnz/total` density exceeds `ms`. -/
theorem stopCheck_some_iff {c d : ℕ} (ms : ℚ) (W : Fin c → Fin d → ℚ) :
    stopCheck (some ms) W = true ↔ code_density W > ms := by
  simp [stopCheck]

/-- The path accumulator is only ever appended to: running the sweep from any
`path` yields `path` followed by what the sweep from an empty path yields. -/
theorem glm_saga_loop_path_append {σ : Type} {c d : ℕ} (train : σ → ℚ → ℚ → σ)
    (getW : σ → Fin c → Fin d → ℚ) (getB : σ → Fin c → ℚ) (evalTr : σ → ℚ → ℚ → ℚ × ℚ)
    (evalVal evalTest : Option (σ → ℚ → ℚ → ℚ × ℚ)) (alpha : ℚ) (ms : Option ℚ)
    (pairs : List (ℚ × ℚ)) :
    ∀ (state : σ) (path : List (PathEntry c d)) (bl : Option ℚ) (bp : Option (PathEntry c d)),
      (glm_saga_loop train getW getB evalTr evalVal evalTest alpha ms pairs state path bl bp).1
        = path ++
          (glm_saga_loop train getW getB evalTr evalVal evalTest alpha ms pairs state [] bl bp).1 := by
  induction pairs with
  | nil =>
      intro state path bl bp
      simp [glm_saga_loop]
  | cons p rest ih =>
      obtain ⟨lam, lr⟩ := p
      intro state path bl bp
      simp only [glm_saga_loop]
      by_cases h : stopCheck ms (getW (train state lam lr)) = true
      · rw [if_pos h, if_pos h]
        simp
      · rw [if_neg h, if_neg h]
        conv_lhs => rw [ih]
        conv_rhs => rw [ih]
        simp

/-- Structure of the sweep's path under a sparsity ceiling `ms`: one entry per
processed `(lam, lr)` pair in order; every entry except possibly the last has
`nnz/total` density at most `ms` (otherwise the sweep would have broken
earlier), and if the sweep stopped before exhausting the pairs then the last
recorded entry's density exceeds `ms`. -/
theorem glm_saga_loop_stop_spec {σ : Type} {c d : ℕ} (train : σ → ℚ → ℚ → σ)
    (getW : σ → Fin c → Fin d → ℚ) (getB : σ → Fin c → ℚ) (evalTr : σ → ℚ → ℚ → ℚ × ℚ)
    (evalVal evalTest : Option (σ → ℚ → ℚ → ℚ × ℚ)) (alpha ms : ℚ)
    (pairs : List (ℚ × ℚ)) :
    ∀ (state : σ) (bl : Option ℚ) (bp : Option (PathEntry c d)) (L : List (PathEntry c d)),
      (glm_saga_loop train getW getB evalTr evalVal evalTest alpha (some ms)
        pairs state [] bl bp).1 = L →
      L.length ≤ pairs.length
      ∧ (∀ (i : ℕ) (e : PathEntry c d), i + 1 < L.length → L[i]? = some e →
          code_density e.weight ≤ ms)
      ∧ (L.length < pairs.length →
          ∃ e, L.getLast? = some e ∧ code_density e.weight > ms)
      ∧ (pairs ≠ [] → L ≠ [])
      ∧ (∀ (i : ℕ) (e : PathEntry c d), L[i]? = some e →
          ∃ p, pairs[i]? = some p ∧ e.lam = p.1 ∧ e.lr = p.2) := by
  induction pairs with
  | nil =>
      intro state bl bp L hL
      simp only [glm_saga_loop] at hL
      subst hL
      refine ⟨by simp, ?_, ?_, ?_, ?_⟩
      · intro i e hi _
        simp at hi
      · intro hlen
        simp at hlen
      · intro habs
        exact absurd rfl habs
      · intro i e he
        simp at he
  | cons p rest ih =>
      obtain ⟨lam, lr⟩ := p
      intro state bl bp L hL
      simp only [glm_saga_loop] at hL
      generalize hE : mkPathEntry lam lr alpha (evalTr (train state lam lr) lam lr)
          (evalOrNeg1 evalVal (train state lam lr) lam lr)
          (evalOrNeg1 evalTest (train state lam lr) lam lr)
          (getW (train state lam lr)) (getB (train state lam lr)) = E at hL
      generalize hB : bestsUpdate (evalOrNeg1 evalVal (train state lam lr) lam lr).1 E bl bp
          = B at hL
      have hEw : E.weight = getW (train state lam lr) := by
        rw [← hE]
        rfl
      by_cases h : stopCheck (some ms) (getW (train state lam lr)) = true
      · rw [if_pos h] at hL
        have hd : code_density (getW (train state lam lr)) > ms :=
          (stopCheck_some_iff ms (getW (train state lam lr))).mp h
        simp only [List.nil_append] at hL
        have hL1 : L = [E] := by
          rw [← hL]
        subst hL1
        refine ⟨by simp, ?_, ?_, by simp, ?_⟩
        · intro i e hi _
          simp only [List.length_singleton] at hi
          omega
        · intro _
          refine ⟨E, by simp, ?_⟩
          rw [hEw]
          exact hd
        · intro i e he
          cases i with
          | zero =>
              simp only [List.getElem?_cons_zero, Option.some.injEq] at he
              refine ⟨(lam, lr), by simp, ?_, ?_⟩
              · rw [← he, ← hE]
                rfl
              · rw [← he, ← hE]
                rfl
          | succ i =>
              simp at he
      · rw [if_neg h] at hL
        rw [glm_saga_loop_path_append] at hL
        simp only [List.nil_append] at hL
        have hd : code_density (getW (train state lam lr)) ≤ ms :=
          not_lt.mp (fun hgt => h ((stopCheck_some_iff ms (getW (train state lam lr))).mpr hgt))
        obtain ⟨h1, h2, h3, h4, h5⟩ := ih (train state lam lr) B.1 B.2 _ rfl
        have hL1 : L = E :: (glm_saga_loop train getW getB evalTr evalVal evalTest alpha
            (some ms) rest (train state lam lr) [] B.1 B.2).1 := by
          rw [← hL]
          simp
        subst hL1
        refine ⟨?_, ?_, ?_, by simp, ?_⟩
        · simp only [List.length_cons]
          omega
        · intro i e hi he
          cases i with
          | zero =>
              simp only [List.getElem?_cons_zero, Option.some.injEq] at he
              rw [← he, hEw]
              exact hd
          | succ i =>
              simp only [List.getElem?_cons_succ] at he
              simp only [List.length_cons] at hi
              exact h2 i e (by omega) he
        · intro hlen
          simp only [List.length_cons] at hlen
          obtain ⟨e, hlast, hdens⟩ := h3 (by omega)
          have hne : (glm_saga_loop train getW getB evalTr evalVal evalTest alpha
              (some ms) rest (train state lam lr) [] B.1 B.2).1 ≠ [] := by
            intro hnil
            rw [hnil] at hlast
            simp at hlast
          refine ⟨e, ?_, hdens⟩
          rw [show E :: (glm_saga_loop train getW getB evalTr evalVal evalTest alpha
              (some ms) rest (train state lam lr) [] B.1 B.2).1
              = [E] ++ (glm_saga_loop train getW getB evalTr evalVal evalTest alpha
              (some ms) rest (train state lam lr) [] B.1 B.2).1 from rfl]
          rw [List.getLast?_append_of_ne_nil [E] hne]
          exact hlast
        · intro i e he
          cases i with
          | zero =>
              simp only [List.getElem?_cons_zero, Option.some.injEq] at he
              refine ⟨(lam, lr), by simp, ?_, ?_⟩
              · rw [← he, ← hE]
                rfl
              · rw [← he, ← hE]
                rfl
          | succ i =>
              simp only [List.getElem?_cons_succ] at he
              obtain ⟨q, hq, hq1, hq2⟩ := h5 i e he
              exact ⟨q, by simpa using hq, hq1, hq2⟩

/-- Claim C1, amended: with a ceiling `max_sparsity = ms` configured, the
sweep stops early exactly when `nnz/total` — the fraction of weight entries
of magnitude above `1e-5`, the quantity the code computes and logs as
"sparsity" — exceeds `ms` (not the fraction of near-zero entries, as the
spec words it): every recorded entry except possibly the last has
`nnz/total ≤ ms`, an early stop happens exactly at an entry with
`nnz/total > ms`, that triggering entry is still appended, and entries for
levels after the stop are never appended (the path is a per-level prefix of
the `(lam, lr)` schedule). -/
theorem claimC1 {σ : Type} {c d : ℕ} (train : σ → ℚ → ℚ → σ)
    (getW : σ → Fin c → Fin d → ℚ) (getB : σ → Fin c → ℚ) (evalTr : σ → ℚ → ℚ → ℚ × ℚ)
    (evalVal evalTest : Option (σ → ℚ → ℚ → ℚ × ℚ)) (alpha ms : ℚ)
    (pairs : List (ℚ × ℚ)) (state : σ) (L : List (PathEntry c d))
    (hL : (glm_saga_run train getW getB evalTr evalVal evalTest alpha (some ms)
      pairs state).1 = L) :
    L.length ≤ pairs.length
    ∧ (∀ (i : ℕ) (e : PathEntry c d), i + 1 < L.length → L[i]? = some e →
        code_density e.weight ≤ ms)
    ∧ (L.length < pairs.length → ∃ e, L.getLast? = some e ∧ code_density e.weight > ms)
    ∧ (pairs ≠ [] → L ≠ [])
    ∧ (∀ (i : ℕ) (e : PathEntry c d), L[i]? = some e →
        ∃ p, pairs[i]? = some p ∧ e.lam = p.1 ∧ e.lr = p.2) :=
  glm_saga_loop_stop_spec train getW getB evalTr evalVal evalTest alpha ms pairs
    state none none L hL

/-- Counterexample to claim C1 as stated: a sweep whose trained weight is the
all-zero 1×2 matrix at every level, with ceiling `max_sparsity = 2/5`.  The
fraction of entries below `1e-5` in magnitude (`near_zero_frac`) is `1 > 2/5`
already at the first level, so the claimed rule would stop the sweep there;
the code does not stop (its `nnz/total` is `0 ≤ 2/5`) and appends both
levels. -/
theorem claimC1_counterexample :
    (glm_saga_run (σ := Unit) (c := 1) (d := 2) (fun _ _ _ => ())
      (fun _ => fun _ _ => (0:ℚ)) (fun _ => fun _ => (0:ℚ)) (fun _ _ _ => ((0:ℚ), (0:ℚ)))
      none none 1 (some (2/5)) [(1,1), (2,2)] ()).1.length = 2
    ∧ ∀ e ∈ (glm_saga_run (σ := Unit) (c := 1) (d := 2) (fun _ _ _ => ())
      (fun _ => fun _ _ => (0:ℚ)) (fun _ => fun _ => (0:ℚ)) (fun _ _ _ => ((0:ℚ), (0:ℚ)))
      none none 1 (some (2/5)) [(1,1), (2,2)] ()).1, near_zero_frac e.weight > 2/5 := by
  have h0 : stopCheck (some (2/5)) (fun _ _ => (0:ℚ) : Fin 1 → Fin 2 → ℚ) = false := by
    norm_num [stopCheck, code_density, weight_nnz]
  have h1 : near_zero_frac (fun _ _ => (0:ℚ) : Fin 1 → Fin 2 → ℚ) = 1 := by
    norm_num [near_zero_frac]
  constructor
  · simp [glm_saga_run, glm_saga_loop, h0]
  · simp [glm_saga_run, glm_saga_loop, h0, evalOrNeg1, mkPathEntry, h1]
    norm_num

/-- Witness for C1 at a sweep that does stop early: constant trained weight
`[[1]]`, ceiling `2/5`, two scheduled levels; the sweep breaks after the
first level and the last recorded entry has `nnz/total = 1 > 2/5`. -/
theorem claimC1_witness :
    ∃ e, (glm_saga_run (σ := Unit) (c := 1) (d := 1) (fun _ _ _ => ())
      (fun _ => fun _ _ => (1:ℚ)) (fun _ => fun _ => (0:ℚ)) (fun _ _ _ => ((0:ℚ), (0:ℚ)))
      none none 1 (some (2/5)) [(1,1), (2,2)] ()).1.getLast? = some e
      ∧ code_density e.weight > 2/5 := by
  have h := claimC1 (σ := Unit) (c := 1) (d := 1) (fun _ _ _ => ())
    (fun _ => fun _ _ => (1:ℚ))
    (fun _ => fun _ => (0:ℚ)) (fun _ _ _ => ((0:ℚ), (0:ℚ))) none none 1 (2/5)
    [(1,1), (2,2)] () _ rfl
  refine h.2.2.1 ?_
  have h0 : stopCheck (some (2/5)) (fun _ _ => (1:ℚ) : Fin 1 → Fin 1 → ℚ) = true := by
    norm_num [stopCheck, code_density, weight_nnz]
  simp [glm_saga_run, glm_saga_loop, h0]

/-- Once `best_val_loss` holds `-1`, a `-1` validation loss never improves on
it strictly. -/
theorem bestsUpdate_self_neg1 {c d : ℕ} (E : PathEntry c d) (bp : Option (PathEntry c d)) :
    bestsUpdate (-1) E (some (-1)) bp = (some (-1), bp) := by
  simp [bestsUpdate]

/-- With no validation loader and `best_val_loss = -1` already recorded, the
sweep never changes `best_params` again. -/
theorem glm_saga_loop_best_stays {σ : Type} {c d : ℕ} (train : σ → ℚ → ℚ → σ)
    (getW : σ → Fin c → Fin d → ℚ) (getB : σ → Fin c → ℚ) (evalTr : σ → ℚ → ℚ → ℚ × ℚ)
    (evalTest : Option (σ → ℚ → ℚ → ℚ × ℚ)) (alpha : ℚ) (ms : Option ℚ)
    (pairs : List (ℚ × ℚ)) :
    ∀ (state : σ) (path : List (PathEntry c d)) (bp : Option (PathEntry c d)),
      (glm_saga_loop train getW getB evalTr none evalTest alpha ms pairs state path
        (some (-1)) bp).2.1 = bp := by
  induction pairs with
  | nil =>
      intro state path bp
      simp [glm_saga_loop]
  | cons p rest ih =>
      obtain ⟨lam, lr⟩ := p
      intro state path bp
      simp only [glm_saga_loop, evalOrNeg1, bestsUpdate_self_neg1]
      by_cases h : stopCheck ms (getW (train state lam lr)) = true
      · rw [if_pos h]
      · rw [if_neg h]
        exact ih (train state lam lr) (path ++ [_]) bp

/-- With no validation and no test loader, every entry the sweep appends
records `-1` for all four validation/test metrics. -/
theorem glm_saga_loop_entries_neg1 {σ : Type} {c d : ℕ} (train : σ → ℚ → ℚ → σ)
    (getW : σ → Fin c → Fin d → ℚ) (getB : σ → Fin c → ℚ) (evalTr : σ → ℚ → ℚ → ℚ × ℚ)
    (alpha : ℚ) (ms : Option ℚ) (pairs : List (ℚ × ℚ)) :
    ∀ (state : σ) (path : List (PathEntry c d)) (bl : Option ℚ) (bp : Option (PathEntry c d)),
      ∀ e ∈ (glm_saga_loop train getW getB evalTr none none alpha ms pairs state path bl bp).1,
        e ∈ path ∨ (e.loss_val = -1 ∧ e.acc_val = -1 ∧ e.loss_test = -1 ∧ e.acc_test = -1) := by
  induction pairs with
  | nil =>
      intro state path bl bp e he
      simp only [glm_saga_loop] at he
      exact Or.inl he
  | cons p rest ih =>
      obtain ⟨lam, lr⟩ := p
      intro state path bl bp e he
      simp only [glm_saga_loop] at he
      by_cases h : stopCheck ms (getW (train state lam lr)) = true
      · rw [if_pos h] at he
        simp only [List.mem_append, List.mem_singleton] at he
        rcases he with he | he
        · exact Or.inl he
        · subst he
          exact Or.inr (by simp [mkPathEntry, evalOrNeg1])
      · rw [if_neg h] at he
        rcases ih (train state lam lr) _ _ _ e he with hmem | hpr
        · simp only [List.mem_append, List.mem_singleton] at hmem
          rcases hmem with hmem | hmem
          · exact Or.inl hmem
          · subst hmem
            exact Or.inr (by simp [mkPathEntry, evalOrNeg1])
        · exact Or.inr hpr

/-- Claim C9: when `glm_saga` runs with `val_loader = None` (and
`test_loader = None`), every path entry records validation loss and accuracy
as `-1` rather than an absent value, and the "best" entry of the returned
result is always the first path entry — `-1` strictly improves on the
initial infinity only once. -/
theorem claimC9 {σ : Type} {c d : ℕ} (train : σ → ℚ → ℚ → σ)
    (getW : σ → Fin c → Fin d → ℚ) (getB : σ → Fin c → ℚ) (evalTr : σ → ℚ → ℚ → ℚ × ℚ)
    (alpha : ℚ) (ms : Option ℚ) (pairs : List (ℚ × ℚ)) (state : σ)
    (hpairs : pairs ≠ []) :
    (∀ e ∈ (glm_saga_run train getW getB evalTr none none alpha ms pairs state).1,
      e.loss_val = -1 ∧ e.acc_val = -1)
    ∧ (glm_saga_run train getW getB evalTr none none alpha ms pairs state).2.1
        = (glm_saga_run train getW getB evalTr none none alpha ms pairs state).1.head? := by
  constructor
  · intro e he
    rcases glm_saga_loop_entries_neg1 train getW getB evalTr alpha ms pairs state [] none none
        e he with hmem | hpr
    · simp at hmem
    · exact ⟨hpr.1, hpr.2.1⟩
  · cases pairs with
    | nil => exact absurd rfl hpairs
    | cons p rest =>
        obtain ⟨lam, lr⟩ := p
        show (glm_saga_loop train getW getB evalTr none none alpha ms
            ((lam, lr) :: rest) state [] none none).2.1
          = (glm_saga_loop train getW getB evalTr none none alpha ms
            ((lam, lr) :: rest) state [] none none).1.head?
        simp only [glm_saga_loop, evalOrNeg1, bestsUpdate]
        by_cases h : stopCheck ms (getW (train state lam lr)) = true
        · rw [if_pos h]
          simp
        · rw [if_neg h]
          rw [glm_saga_loop_best_stays]
          rw [glm_saga_loop_path_append]
          simp

/-- Witness for C9 on a one-level sweep with no validation/test loaders. -/
theorem claimC9_witness :
    (∀ e ∈ (glm_saga_run (σ := Unit) (c := 1) (d := 1) (fun _ _ _ => ())
        (fun _ => fun _ _ => (0:ℚ)) (fun _ => fun _ => (0:ℚ)) (fun _ _ _ => ((0:ℚ), (0:ℚ)))
        none none 1 none [(1,1)] ()).1, e.loss_val = -1 ∧ e.acc_val = -1)
    ∧ (glm_saga_run (σ := Unit) (c := 1) (d := 1) (fun _ _ _ => ())
        (fun _ => fun _ _ => (0:ℚ)) (fun _ => fun _ => (0:ℚ)) (fun _ _ _ => ((0:ℚ), (0:ℚ)))
        none none 1 none [(1,1)] ()).2.1
      = (glm_saga_run (σ := Unit) (c := 1) (d := 1) (fun _ _ _ => ())
        (fun _ => fun _ _ => (0:ℚ)) (fun _ => fun _ => (0:ℚ)) (fun _ _ _ => ((0:ℚ), (0:ℚ)))
        none none 1 none [(1,1)] ()).1.head? :=
  claimC9 (fun _ _ _ => ()) (fun _ => fun _ _ => (0:ℚ)) (fun _ => fun _ => (0:ℚ))
    (fun _ _ _ => ((0:ℚ), (0:ℚ))) 1 none [(1,1)] () (by simp)

/-- `torch.logspace` yields `steps` points. -/
theorem logspace_length (pow10 : ℚ → ℚ) (a b : ℚ) (steps : ℕ) :
    (logspace pow10 a b steps).length = steps := by
  simp only [logspace, List.length_map, List.length_range]

/-- The first point of `torch.logspace(a, b, steps)` is `10 ** a`. -/
theorem logspace_getElem_zero (pow10 : ℚ → ℚ) (a b : ℚ) (steps : ℕ) (h : 0 < steps) :
    (logspace pow10 a b steps)[0]? = some (pow10 a) := by
  simp only [logspace, List.getElem?_map, List.getElem?_range h, Option.map_some']
  norm_num

/-- For `steps ≥ 2` the last point of `torch.logspace(a, b, steps)` is `10 ** b`. -/
theorem logspace_getElem_last (pow10 : ℚ → ℚ) (a b : ℚ) (steps : ℕ) (h : 2 ≤ steps) :
    (logspace pow10 a b steps)[steps - 1]? = some (pow10 b) := by
  have h1 : steps - 1 < steps := by omega
  have hne : ((steps : ℚ) - 1) ≠ 0 := by
    have h2 : (2 : ℚ) ≤ (steps : ℚ) := by exact_mod_cast h
    intro h0
    have h3 : (steps : ℚ) = 1 := by linarith
    linarith
  simp only [logspace, List.getElem?_map, List.getElem?_range h1, Option.map_some']
  congr 1
  congr 1
  have hcast : ((steps - 1 : ℕ) : ℚ) = (steps : ℚ) - 1 := by
    have h4 : 1 ≤ steps := by omega
    push_cast [h4]
    ring
  rw [hcast]
  field_simp

/-- For `steps ≥ 2`, `getLastD` of `torch.logspace(a, b, steps)` is `10 ** b`. -/
theorem logspace_getLastD (pow10 : ℚ → ℚ) (a b : ℚ) (steps : ℕ) (h : 2 ≤ steps) :
    (logspace pow10 a b steps).getLastD 0 = pow10 b := by
  rw [List.getLastD_eq_getLast?, List.getLast?_eq_getElem?, logspace_length,
    logspace_getElem_last pow10 a b steps h]
  rfl

/-- With `max_sparsity = None` the sweep never breaks: every scheduled
`(lam, lr)` pair contributes exactly one path entry. -/
theorem glm_saga_loop_length_none {σ : Type} {c d : ℕ} (train : σ → ℚ → ℚ → σ)
    (getW : σ → Fin c → Fin d → ℚ) (getB : σ → Fin c → ℚ) (evalTr : σ → ℚ → ℚ → ℚ × ℚ)
    (evalVal evalTest : Option (σ → ℚ → ℚ → ℚ × ℚ)) (alpha : ℚ)
    (pairs : List (ℚ × ℚ)) :
    ∀ (state : σ) (path : List (PathEntry c d)) (bl : Option ℚ) (bp : Option (PathEntry c d)),
      (glm_saga_loop train getW getB evalTr evalVal evalTest alpha none
        pairs state path bl bp).1.length = path.length + pairs.length := by
  induction pairs with
  | nil =>
      intro state path bl bp
      simp [glm_saga_loop]
  | cons p rest ih =>
      obtain ⟨lam, lr⟩ := p
      intro state path bl bp
      simp only [glm_saga_loop]
      rw [stopCheck_none (getW (train state lam lr)), if_neg Bool.false_ne_true, ih]
      simp only [List.length_append, List.length_cons, List.length_nil]
      omega

/-- Claim C4: `glm_saga` trains at exactly this schedule.  `max_lambda` is the
maximum-regularization estimate divided by `max(alpha, 0.001)`; `min_lambda`
is `epsilon * max_lambda`; the schedule zips `k` log-spaced lambdas from
`max_lambda` down to `min_lambda` with `k` log-spaced learning rates from
`max_lr` down to `max_lr / lr_decay_factor`; with `do_zero` one final pair
`(0, last computed rate)` is appended, so the schedule has `k + 1` pairs and,
when no sparsity stop is configured, the returned path has exactly `k + 1`
entries.  (`pow10`/`log10` are the library exponential/logarithm, assumed
inverse to each other at the four endpoint values; `k ≥ 2` so that the
log-space has distinct first and last points.) -/
theorem claimC4 (pow10 log10 : ℚ → ℚ) (maximum_reg alpha epsilon max_lr lr_decay_factor : ℚ)
    (k : ℕ) (hk : 2 ≤ k)
    (hmax : pow10 (log10 (maximum_reg / max (1/1000) alpha))
      = maximum_reg / max (1/1000) alpha)
    (hmin : pow10 (log10 (epsilon * (maximum_reg / max (1/1000) alpha)))
      = epsilon * (maximum_reg / max (1/1000) alpha))
    (hlr : pow10 (log10 max_lr) = max_lr)
    (hlrd : pow10 (log10 (max_lr / lr_decay_factor)) = max_lr / lr_decay_factor) :
    (buildSchedule pow10 log10 maximum_reg alpha epsilon max_lr lr_decay_factor k true).length
      = k + 1
    ∧ (buildSchedule pow10 log10 maximum_reg alpha epsilon max_lr lr_decay_factor k true)[0]?
      = some (maximum_reg / max (1/1000) alpha, max_lr)
    ∧ (buildSchedule pow10 log10 maximum_reg alpha epsilon max_lr lr_decay_factor k true)[k-1]?
      = some (epsilon * (maximum_reg / max (1/1000) alpha), max_lr / lr_decay_factor)
    ∧ (buildSchedule pow10 log10 maximum_reg alpha epsilon max_lr lr_decay_factor k true)[k]?
      = some (0, max_lr / lr_decay_factor)
    ∧ (∀ (σ : Type) (c d : ℕ) (train : σ → ℚ → ℚ → σ) (getW : σ → Fin c → Fin d → ℚ)
        (getB : σ → Fin c → ℚ) (evalTr : σ → ℚ → ℚ → ℚ × ℚ)
        (evalVal evalTest : Option (σ → ℚ → ℚ → ℚ × ℚ)) (alpha2 : ℚ) (state : σ),
        (glm_saga_run train getW getB evalTr evalVal evalTest alpha2 none
          (buildSchedule pow10 log10 maximum_reg alpha epsilon max_lr lr_decay_factor k true)
          state).1.length = k + 1) := by
  have hS : buildSchedule pow10 log10 maximum_reg alpha epsilon max_lr lr_decay_factor k true
      = (logspace pow10 (log10 (maximum_reg / max (1/1000) alpha))
          (log10 (epsilon * (maximum_reg / max (1/1000) alpha))) k ++ [0]).zip
        (logspace pow10 (log10 max_lr) (log10 (max_lr / lr_decay_factor)) k
          ++ [(logspace pow10 (log10 max_lr) (log10 (max_lr / lr_decay_factor)) k).getLastD 0]) := by
    simp [buildSchedule]
  have hlen1 : (logspace pow10 (log10 (maximum_reg / max (1/1000) alpha))
      (log10 (epsilon * (maximum_reg / max (1/1000) alpha))) k ++ [0]).length = k + 1 := by
    simp [logspace_length]
  have hlen2 : (logspace pow10 (log10 max_lr) (log10 (max_lr / lr_decay_factor)) k
      ++ [(logspace pow10 (log10 max_lr) (log10 (max_lr / lr_decay_factor)) k).getLastD 0]).length
      = k + 1 := by
    simp [logspace_length]
  have hlen : (buildSchedule pow10 log10 maximum_reg alpha epsilon max_lr lr_decay_factor
      k true).length = k + 1 := by
    rw [hS, List.length_zip, hlen1, hlen2, Nat.min_self]
  refine ⟨hlen, ?_, ?_, ?_, ?_⟩
  · rw [hS]
    apply List.getElem?_zip_eq_some.mpr
    constructor
    · rw [List.getElem?_append_left (by rw [logspace_length]; omega)]
      rw [logspace_getElem_zero _ _ _ _ (by omega), hmax]
    · rw [List.getElem?_append_left (by rw [logspace_length]; omega)]
      rw [logspace_getElem_zero _ _ _ _ (by omega), hlr]
  · rw [hS]
    apply List.getElem?_zip_eq_some.mpr
    constructor
    · rw [List.getElem?_append_left (by rw [logspace_length]; omega)]
      rw [logspace_getElem_last _ _ _ _ hk, hmin]
    · rw [List.getElem?_append_left (by rw [logspace_length]; omega)]
      rw [logspace_getElem_last _ _ _ _ hk, hlrd]
  · rw [hS]
    apply List.getElem?_zip_eq_some.mpr
    constructor
    · rw [List.getElem?_append_right (by rw [logspace_length])]
      rw [logspace_length]
      simp
    · rw [List.getElem?_append_right (by rw [logspace_length])]
      rw [logspace_length]
      simp only [Nat.sub_self, List.getElem?_cons_zero, Option.some.injEq]
      rw [logspace_getLastD _ _ _ _ hk, hlrd]
  · intro σ c d train getW getB evalTr evalVal evalTest alpha2 state
    show (glm_saga_loop train getW getB evalTr evalVal evalTest alpha2 none
        (buildSchedule pow10 log10 maximum_reg alpha epsilon max_lr lr_decay_factor k true)
        state [] none none).1.length = k + 1
    rw [glm_saga_loop_length_none]
    rw [hlen]
    simp

/-- Witness for C4 with `pow10 = log10 = id` (exactly inverse everywhere),
`maximum_reg = 5`, `alpha = 1`, `epsilon = 1/10`, `max_lr = 2`,
`lr_decay_factor = 2`, `k = 2`. -/
theorem claimC4_witness :
    (buildSchedule id id 5 1 (1/10) 2 2 2 true).length = 2 + 1 :=
  (claimC4 id id 5 1 (1/10) 2 2 2 (by norm_num) rfl rfl rfl rfl).1

/-- Subtracting two mapped list sums termwise. -/
theorem list_map_sum_sub {α : Type} (B : List α) (f g : α → ℚ) :
    (B.map f).sum - (B.map g).sum = (B.map fun j => f j - g j).sum := by
  induction B with
  | nil => simp
  | cons q t ih =>
      simp only [List.map_cons, List.sum_cons]
      rw [← ih]
      ring

/-- A full sum guarded by membership in a duplicate-free list is the list sum. -/
theorem sum_ite_mem_list {n : ℕ} (B : List (Fin n)) (hB : B.Nodup) (f : Fin n → ℚ) :
    (∑ i, if i ∈ B then f i else 0) = (B.map f).sum := by
  have h1 : (∑ i, if i ∈ B then f i else 0) = ∑ i ∈ B.toFinset, f i := by
    simp only [← List.mem_toFinset]
    rw [Finset.sum_ite_mem Finset.univ B.toFinset f, Finset.univ_inter]
  rw [h1, List.sum_toFinset f hB]

/-- Core of the SAGA running-average invariant: adding the batch delta
`(new batch mean - old batch mean) * batch_size / n` to a table mean yields
the mean of the updated table, provided the batch indices are distinct. -/
theorem saga_avg_update1 {n : ℕ} (B : List (Fin n)) (hB : B.Nodup) (t a : Fin n → ℚ) :
    (∑ i, t i) / (n : ℚ)
      + ((B.map a).sum / (B.length : ℚ) - (B.map t).sum / (B.length : ℚ)) * (B.length : ℚ)
        / (n : ℚ)
      = (∑ i, if i ∈ B then a i else t i) / (n : ℚ) := by
  have key : ((B.map a).sum / (B.length : ℚ) - (B.map t).sum / (B.length : ℚ)) * (B.length : ℚ)
      = (B.map a).sum - (B.map t).sum := by
    rcases eq_or_ne ((B.length : ℕ) : ℚ) 0 with hbs | hbs
    · have hnil : B = [] := List.length_eq_zero.mp (by exact_mod_cast hbs)
      subst hnil
      simp
    · field_simp
  rw [key]
  have hsum : (∑ i, if i ∈ B then a i else t i)
      = (∑ i, t i) + ((B.map a).sum - (B.map t).sum) := by
    have hsplit : ∀ i : Fin n, (if i ∈ B then a i else t i)
        = t i + (if i ∈ B then a i - t i else 0) := by
      intro i
      by_cases hi : i ∈ B
      · rw [if_pos hi, if_pos hi]
        ring
      · rw [if_neg hi, if_neg hi]
        ring
    rw [Finset.sum_congr rfl fun i _ => hsplit i, Finset.sum_add_distrib,
      sum_ite_mem_list B hB (fun j => a j - t j), ← list_map_sum_sub]
  rw [hsum]
  ring

/-- Weighted version of `saga_avg_update1`: each example contributes its table
row scaled by a fixed per-example factor (the feature value, for the weight
average). -/
theorem saga_avg_update {n : ℕ} (B : List (Fin n)) (hB : B.Nodup) (t a w : Fin n → ℚ) :
    (∑ i, t i * w i) / (n : ℚ)
      + ((B.map fun j => a j * w j).sum / (B.length : ℚ)
        - (B.map fun j => t j * w j).sum / (B.length : ℚ)) * (B.length : ℚ) / (n : ℚ)
      = (∑ i, (if i ∈ B then a i else t i) * w i) / (n : ℚ) := by
  have h := saga_avg_update1 B hB (fun i => t i * w i) (fun i => a i * w i)
  refine h.trans ?_
  congr 1
  refine Finset.sum_congr rfl fun i _ => ?_
  by_cases hi : i ∈ B
  · rw [if_pos hi, if_pos hi]
  · rw [if_neg hi, if_neg hi]

/-- Claim C2: TrainerState invariant of `train_saga`.  The fresh state's
gradient table is all zeros and satisfies the averages invariant; every batch
step rewrites exactly the visited rows of `a_table` with the residual computed
from the pre-batch model (pre-batch weight and bias) and leaves other rows
unchanged; and the batch step preserves the invariant that `w_grad_avg` and
`b_grad_avg` equal the mean over all `n` examples of the contributions
recorded in the table — maintained solely by adding
`(new batch gradient - old batch gradient) * batch_size / n` — provided the
batch indices are distinct. -/
theorem claimC2 {n c d : ℕ} (sq : ℚ → ℚ) (x : Fin n → Fin d → ℚ) (y : Fin n → Fin c → ℚ)
    (sw : Option (Fin n → ℚ)) (lr lam alpha tol : ℚ) (group : Bool) (lookbehind : Option ℕ)
    (w0 : Fin c → Fin d → ℚ) (b0 : Fin c → ℚ) :
    ((initSaga w0 b0 : SagaModel n c d).aTable = fun _ _ => 0)
    ∧ sagaAvgInvariant x (initSaga w0 b0 : SagaModel n c d)
    ∧ (∀ (st : SagaModel n c d) (B : List (Fin n)),
        (sagaBatchStep sq x y sw lr lam alpha tol group lookbehind st B).1.aTable
          = fun i k => if i ∈ B then sagaResidual x y sw st.weight st.bias i k
              else st.aTable i k)
    ∧ (∀ (st : SagaModel n c d) (B : List (Fin n)), B.Nodup →
        sagaAvgInvariant x st →
        sagaAvgInvariant x (sagaBatchStep sq x y sw lr lam alpha tol group lookbehind st B).1) := by
  have hA : ∀ (st : SagaModel n c d) (B : List (Fin n)),
      (sagaBatchStep sq x y sw lr lam alpha tol group lookbehind st B).1.aTable
        = sagaStepTable x y sw st B := by
    intro st B
    cases lookbehind with
    | none =>
        simp only [sagaBatchStep]
        split
        · rfl
        · rfl
    | some m => rfl
  have hW : ∀ (st : SagaModel n c d) (B : List (Fin n)),
      (sagaBatchStep sq x y sw lr lam alpha tol group lookbehind st B).1.wGradAvg
        = sagaStepWAvg x y sw st B := by
    intro st B
    cases lookbehind with
    | none =>
        simp only [sagaBatchStep]
        split
        · rfl
        · rfl
    | some m => rfl
  have hBv : ∀ (st : SagaModel n c d) (B : List (Fin n)),
      (sagaBatchStep sq x y sw lr lam alpha tol group lookbehind st B).1.bGradAvg
        = sagaStepBAvg x y sw st B := by
    intro st B
    cases lookbehind with
    | none =>
        simp only [sagaBatchStep]
        split
        · rfl
        · rfl
    | some m => rfl
  refine ⟨rfl, ⟨fun k l => by simp [initSaga], fun k => by simp [initSaga]⟩, hA, ?_⟩
  intro st B hB hInv
  constructor
  · intro k l
    rw [hW st B, hA st B]
    unfold sagaStepWAvg batchWGrad sagaStepTable
    rw [hInv.1 k l]
    exact saga_avg_update B hB (fun i => st.aTable i k)
      (fun i => sagaResidual x y sw st.weight st.bias i k) (fun i => x i l)
  · intro k
    rw [hBv st B, hA st B]
    unfold sagaStepBAvg batchBGrad sagaStepTable
    rw [hInv.2 k]
    exact saga_avg_update1 B hB (fun i => st.aTable i k)
      (fun i => sagaResidual x y sw st.weight st.bias i k)

/-- Witness for C2: one batch step on a 1-example, 1-class, 1-feature dataset
preserves the averages invariant. -/
theorem claimC2_witness :
    sagaAvgInvariant (fun _ _ => (0:ℚ))
      (sagaBatchStep (fun _ => (0:ℚ)) (n := 1) (c := 1) (d := 1) (fun _ _ => (0:ℚ))
        (fun _ _ => (0:ℚ)) none 0 0 1 0 false none
        (initSaga (fun _ _ => (0:ℚ)) (fun _ => (0:ℚ))) [0]).1 := by
  have h := claimC2 (n := 1) (c := 1) (d := 1) (fun _ => (0:ℚ)) (fun _ _ => (0:ℚ))
    (fun _ _ => (0:ℚ)) none 0 0 1 0 false none (fun _ _ => (0:ℚ)) (fun _ => (0:ℚ))
  exact h.2.2.2 (initSaga (fun _ _ => (0:ℚ)) (fun _ => (0:ℚ))) [0] (by simp) h.2.1

/-- Claim C3: in `train_saga`'s batch step with `lookbehind = None`, when the
combined step size — the code's `criteria = sqrt(dw**2 + db**2)` — is `≤ tol`,
the function returns immediately (`true` flag) without committing the new
weight and bias (the model keeps its pre-batch values) while the returned
`a_table` and gradient averages already include that batch's update; with
`lookbehind` configured the per-step check is skipped and the new weight and
bias are always committed. -/
theorem claimC3 {n c d : ℕ} (sq : ℚ → ℚ) (x : Fin n → Fin d → ℚ) (y : Fin n → Fin c → ℚ)
    (sw : Option (Fin n → ℚ)) (lr lam alpha tol : ℚ) (group : Bool) :
    (∀ (st : SagaModel n c d) (B : List (Fin n)),
      sagaStepCriteria sq x y sw lr lam alpha group st B ≤ tol →
        sagaBatchStep sq x y sw lr lam alpha tol group none st B
          = ({ st with aTable := sagaStepTable x y sw st B,
                       wGradAvg := sagaStepWAvg x y sw st B,
                       bGradAvg := sagaStepBAvg x y sw st B }, true))
    ∧ (∀ (m : ℕ) (st : SagaModel n c d) (B : List (Fin n)),
        sagaBatchStep sq x y sw lr lam alpha tol group (some m) st B
          = ({ weight := sagaWeightNew sq x y sw lr lam alpha group st B,
               bias := sagaBiasNew x y sw lr st B,
               aTable := sagaStepTable x y sw st B,
               wGradAvg := sagaStepWAvg x y sw st B,
               bGradAvg := sagaStepBAvg x y sw st B }, false)) := by
  constructor
  · intro st B hc
    simp only [sagaBatchStep]
    rw [if_pos hc]
  · intro m st B
    rfl

/-- Witness for C3 on a 1-example dataset where the library square root is the
constant-zero stub, so the criteria is `0 ≤ tol = 0` and the step returns the
converged flag without committing. -/
theorem claimC3_witness :
    (sagaBatchStep (fun _ => (0:ℚ)) (n := 1) (c := 1) (d := 1) (fun _ _ => (0:ℚ))
        (fun _ _ => (0:ℚ)) none 0 0 1 0 false none
        (initSaga (fun _ _ => (0:ℚ)) (fun _ => (0:ℚ))) [0]).2 = true := by
  rw [(claimC3 (n := 1) (c := 1) (d := 1) (fun _ => (0:ℚ)) (fun _ _ => (0:ℚ))
    (fun _ _ => (0:ℚ)) none 0 0 1 0 false).1
    (initSaga (fun _ _ => (0:ℚ)) (fun _ => (0:ℚ))) [0]
    (by norm_num [sagaStepCriteria])]

/-- Claim C5, amended: for every family other than "multinomial" and
"gaussian", a `ValueError` is raised at the family branch of
`elastic_loss_and_acc`, at the per-batch target-encoding branch of
`train_saga`, and at the family branch repeated in `maximum_reg_loader`'s
three data passes — but NOT at `train_saga`'s `num_classes` inference: that
`if/elif` (lines 174-181) has no `else` branch, so when `num_classes` is not
supplied it raises nothing and silently leaves `num_classes = None`. -/
theorem claimC5 (family : String) (h1 : family ≠ "multinomial") (h2 : family ≠ "gaussian") :
    (∀ (c d : ℕ) (ce : List (Fin c → ℚ) → List ℕ → ℚ) (weight : Fin c → Fin d → ℚ)
      (bias : Fin c → ℚ) (inputs : List (Fin d → ℚ)) (yLabels : List ℕ)
      (yValues : List (Fin c → ℚ)) (lam alpha : ℚ),
      elastic_loss_and_acc ce weight bias inputs yLabels yValues lam alpha family
        = Except.error ("Unknown family " ++ family))
    ∧ (∀ (c d : ℕ) (softmaxF : (Fin c → ℚ) → Fin c → ℚ) (weight : Fin c → Fin d → ℚ)
        (bias : Fin c → ℚ) (inputs : List (Fin d → ℚ)) (yLabels : List ℕ)
        (yValues : List (Fin c → ℚ)),
        batchTargetEncode softmaxF weight bias inputs yLabels yValues family
          = Except.error ("Unknown family: " ++ family))
    ∧ (∀ (y_max : ℕ) (yLabels : List ℕ) (yValues : List (Fin y_max → ℚ)),
        maxRegEncode y_max yLabels yValues family = Except.error ("Unknown family " ++ family))
    ∧ (∀ (labelBatches : List (List ℕ)) (firstBatchWidth : Option ℕ),
        inferNumClasses family none labelBatches firstBatchWidth = Except.ok none) := by
  refine ⟨?_, ?_, ?_, ?_⟩
  · intro c d ce weight bias inputs yLabels yValues lam alpha
    simp [elastic_loss_and_acc, h1, h2]
  · intro c d softmaxF weight bias inputs yLabels yValues
    simp [batchTargetEncode, h1, h2]
  · intro y_max yLabels yValues
    simp [maxRegEncode, h1, h2]
  · intro labelBatches firstBatchWidth
    simp [inferNumClasses, h1, h2]

/-- Counterexample to claim C5 as stated: at family `"poisson"` with
`num_classes` not supplied, `train_saga`'s `num_classes` inference block
completes without raising any error — it returns no classes at all (the
Python code leaves `num_classes = None`), contradicting the claim that a
fatal configuration error is raised immediately at this branch point. -/
theorem claimC5_counterexample :
    inferNumClasses "poisson" none [[0, 1], [2]] (some 3) = Except.ok none := by
  simp [inferNumClasses]

/-- Witness for C5 at family `"poisson"`. -/
theorem claimC5_witness :
    elastic_loss_and_acc (c := 1) (d := 1) (fun _ _ => 0) (fun _ _ => 0) (fun _ => 0)
      [] [] [] 0 0 "poisson" = Except.error ("Unknown family " ++ "poisson") :=
  (claimC5 "poisson" (by decide) (by decide)).1 1 1 (fun _ _ => 0) (fun _ _ => 0)
    (fun _ => 0) [] [] [] 0 0
